import Mathlib

/-!
Verification of the football play tracker (src/main.py and
src/pages/2_Personnel_Explorer.py).

Python strings are modelled as lists of codepoints (`List Nat`); Python
numbers (ints and floats) are modelled as `ℤ` and `ℚ` with exact
arithmetic.  Fallible code returns `Option`.  Every definition mirrors the
corresponding source function; doc comments name the source location.
-/

set_option maxHeartbeats 1000000

namespace Football

/-- Codepoints of a string literal, used to write concrete inputs. -/
def codes (s : String) : List Nat := s.data.map Char.toNat

/-- Lowercase conversion of a single codepoint, as Python str.lower acts on
the ASCII range. -/
def lowerC (c : Nat) : Nat := if 65 ≤ c ∧ c ≤ 90 then c + 32 else c

/-- Uppercase conversion of a single codepoint, as Python str.upper acts on
the ASCII range. -/
def upperC (c : Nat) : Nat := if 97 ≤ c ∧ c ≤ 122 then c - 32 else c

/-- Letter test for a codepoint (cased character in the ASCII range). -/
def isAlphaC (c : Nat) : Bool := (65 ≤ c && c ≤ 90) || (97 ≤ c && c ≤ 122)

/-- Whitespace test for a codepoint (the default Python str.strip set). -/
def isSpaceC (c : Nat) : Bool :=
  c == 32 || c == 9 || c == 10 || c == 13 || c == 11 || c == 12

/-- Digit test for a codepoint. -/
def isDigitC (c : Nat) : Bool := 48 ≤ c && c ≤ 57

/-- Python str.strip: drop leading and trailing whitespace. -/
def strip (s : List Nat) : List Nat :=
  ((s.dropWhile isSpaceC).reverse.dropWhile isSpaceC).reverse

/-- One pass of Python str.title: a letter following a non-letter is
uppercased, a letter following a letter is lowercased, other characters
pass through; the Boolean records whether the previous character was a
letter. -/
def titleAux : Bool → List Nat → List Nat
  | _, [] => []
  | prev, c :: cs =>
    (if isAlphaC c then (if prev then lowerC c else upperC c) else c)
      :: titleAux (isAlphaC c) cs

/-- Python str.title. -/
def titlecase (s : List Nat) : List Nat := titleAux false s

/-- Test whether the pattern occurs at the head of the list. -/
def startsWith : List Nat → List Nat → Bool
  | [], _ => true
  | _ :: _, [] => false
  | p :: ps, c :: cs => p == c && startsWith ps cs

/-- Test whether the pattern occurs contiguously anywhere in the list; this
is pandas str.contains for a regex that is a plain alternation of literal
substrings. -/
def containsSub (pat : List Nat) : List Nat → Bool
  | [] => pat.isEmpty
  | c :: cs => startsWith pat (c :: cs) || containsSub pat cs

/-- compute_success from src/main.py lines 109 to 114: down 1 requires a
gain of 4, down 2 half the distance (exact division), every other down the
full distance. -/
def compute_success (down : ℤ) (distance gained : ℚ) : Bool :=
  if down = 1 then decide (4 ≤ gained)
  else if down = 2 then decide (distance / 2 ≤ gained)
  else decide (distance ≤ gained)

/-- Run-like test used by explosive_mask and the Analytics page in
src/main.py: the lowercased play type contains the substring run or rpo. -/
def runlikeLower (pt : List Nat) : Bool :=
  containsSub (codes "run") (pt.map lowerC) ||
    containsSub (codes "rpo") (pt.map lowerC)

/-- Run-like test used by the Formation Explorer in src/main.py lines 293
to 294 and by the Personnel Explorer page lines 106 to 110: the play type
is stripped and title-cased, then matched case-sensitively against the
substrings Run or Rpo. -/
def runlikeTitle (pt : List Nat) : Bool :=
  containsSub (codes "Run") (titlecase (strip pt)) ||
    containsSub (codes "Rpo") (titlecase (strip pt))

/-- Per-record rule of explosive_mask from src/main.py lines 117 to 120: a
run-like play is explosive from 10 yards, any other play from 15 yards. -/
def is_explosive (pt : List Nat) (gained : ℚ) : Bool :=
  (runlikeLower pt && decide (10 ≤ gained)) ||
    (!runlikeLower pt && decide (15 ≤ gained))

/-- One loaded play record, restricted to the fields the analytics pages
read. -/
structure Play where
  playType : List Nat
  resultYards : ℚ
  success : Bool

/-- explosive_mask from src/main.py applied to a collection of records: one
Boolean per record. -/
def explosive_mask (rows : List Play) : List Bool :=
  rows.map (fun r => is_explosive r.playType r.resultYards)

/-- Fields of the row built by the Data Entry form of src/main.py that
participate in the success computation. -/
structure EntryRow where
  down : ℤ
  distance : ℚ
  resultYards : ℚ
  success : Bool

/-- Row construction at entry time, src/main.py lines 169 to 184: the
Success cell is filled with compute_success applied to the Down, Distance
and ResultYards values being stored in the same row. -/
def mkEntryRow (down : ℤ) (distance result_yards : ℚ) : EntryRow :=
  { down := down, distance := distance, resultYards := result_yards,
    success := compute_success down distance result_yards }

/-- Digit value of a codepoint; int() on a single non-digit character
raises, modelled as none. -/
def digitVal (c : Nat) : Option ℤ :=
  if 48 ≤ c ∧ c ≤ 57 then some ((c : ℤ) - 48) else none

/-- parse_personnel from src/pages/2_Personnel_Explorer.py lines 25 to 33:
strip the tag, right-pad a single character with the digit zero, read
running backs and tight ends from the first two characters, and derive
wide receivers from the five skill players left over, clamped at zero.
Reading a character that is not a digit, or indexing an empty string,
raises in the source and is modelled as none. -/
def parse_personnel (tag : List Nat) : Option (ℤ × ℤ × ℤ) :=
  let s0 := strip tag
  let s := if s0.length = 1 then s0 ++ [48] else s0
  match s with
  | c0 :: c1 :: _ =>
    match digitVal c0, digitVal c1 with
    | some rb, some te => some (rb, te, max 0 (5 - (rb + te)))
    | _, _ => none
  | _ => none

/-- Raw cell of a numeric column as loaded from the store: either text
that parses as a number, with its value, or text that does not. -/
inductive RawCell where
  | numeric (q : ℚ)
  | nonNumeric (s : List Nat)

/-- Cleaning step of src/main.py lines 136 to 139, pandas to_numeric with
coerce errors: numeric text keeps its value and anything else becomes the
missing marker NaN, modelled as none. -/
def cleanNumeric : RawCell → Option ℚ
  | RawCell.numeric q => some q
  | RawCell.nonNumeric _ => none

/-- pandas Series.mean over a cleaned column: missing entries are skipped
and the mean of no values is itself missing. -/
def colMean (cells : List (Option ℚ)) : Option ℚ :=
  let vs := cells.filterMap id
  if vs.length = 0 then none else some (vs.sum / vs.length)

/-- Values of the cells of a raw column that are numeric. -/
def numericValues (cells : List RawCell) : List ℚ :=
  cells.filterMap cleanNumeric

/-- Round a rational to the nearest integer, ties going to the even
neighbour; this is the rounding Python round and float formatting apply to
an exactly represented half. -/
def rnEven (x : ℚ) : ℤ :=
  if Int.fract x < 1 / 2 then ⌊x⌋
  else if 1 / 2 < Int.fract x then ⌊x⌋ + 1
  else if ⌊x⌋ % 2 = 0 then ⌊x⌋ else ⌊x⌋ + 1

/-- Value rounded to one decimal place, as round(v, 1) and the percent
format strings of the analytics pages produce. -/
def rnd1 (q : ℚ) : ℚ := (rnEven (10 * q) : ℚ) / 10

/-- Value rounded to two decimal places, as round(v, 2) and the average
yards format string produce. -/
def rnd2 (q : ℚ) : ℚ := (rnEven (100 * q) : ℚ) / 100

/-- Arithmetic mean of a list of rationals, pandas Series.mean over a
fully numeric column. -/
def qmean (l : List ℚ) : ℚ := l.sum / l.length

/-- Value of the binary64 floating point number nearest a positive
rational, for inputs in the normal range: the significand scaled into the
binade of the input is rounded to 53 bits, ties to even.  This models one
correctly rounded IEEE-754 operation, which is how the doubles of the
source behave in division and multiplication. -/
def flRound (x : ℚ) : ℚ :=
  if x ≤ 0 then 0
  else (rnEven (x / 2 ^ (Int.log 2 x - 52)) : ℚ) * 2 ^ (Int.log 2 x - 52)

/-- Run percentage as the program computes it, traced through binary64
floating point: the sum of the boolean indicator column is a small
integer and therefore exact in doubles, the mean is one correctly rounded
division, the scaling by 100 one correctly rounded multiplication, and
the result is displayed rounded to one decimal. -/
def floatRunPct (rows : List Play) : ℚ :=
  rnd1 (flRound (100 *
    flRound ((rows.countP (fun r => runlikeLower r.playType) : ℚ) / rows.length)))

/-- Pass percentage of the complementary records under the same binary64
trace. -/
def floatPassPct (rows : List Play) : ℚ :=
  rnd1 (flRound (100 *
    flRound (((rows.length - rows.countP (fun r => runlikeLower r.playType) : ℕ) : ℚ) / rows.length)))

/-- Concrete group of 2000 plays, exactly one of them run-like, used to
trace the floating point percentage pipeline. -/
def bigGroup : List Play :=
  ⟨codes "Run", 5, true⟩ :: List.replicate 1999 ⟨codes "Pass", 5, true⟩

/-- Run percentage of the Personnel Explorer page lines 108 to 115 and of
the Formation Explorer, src/main.py lines 297 to 300: share of title-case
run-like plays in exact rational arithmetic, rounded to one decimal. -/
def run_pct (rows : List Play) : ℚ :=
  rnd1 (100 * qmean (rows.map (fun r => if runlikeTitle r.playType then (1 : ℚ) else 0)))

/-- Pass percentage of the Personnel Explorer page: share of the
complementary pass-like plays, rounded to one decimal. -/
def pass_pct (rows : List Play) : ℚ :=
  rnd1 (100 * qmean (rows.map (fun r => if runlikeTitle r.playType then (0 : ℚ) else 1)))

/-- Run percentage metric of the Analytics page, src/main.py lines 236 to
240; the metric is only rendered for a non-empty subset, modelled as none
on the empty list. -/
def analyticsRunPct (rows : List Play) : Option ℚ :=
  if rows.length = 0 then none
  else some (rnd1 (100 * qmean (rows.map (fun r => if runlikeLower r.playType then (1 : ℚ) else 0))))

/-- Pass percentage metric of the Analytics page. -/
def analyticsPassPct (rows : List Play) : Option ℚ :=
  if rows.length = 0 then none
  else some (rnd1 (100 * qmean (rows.map (fun r => if runlikeLower r.playType then (0 : ℚ) else 1))))

/-- Success rate metric of the Analytics page. -/
def analyticsSuccessRate (rows : List Play) : Option ℚ :=
  if rows.length = 0 then none
  else some (rnd1 (100 * qmean (rows.map (fun r => if r.success then (1 : ℚ) else 0))))

/-- Average gain metric of the Analytics page. -/
def analyticsAvgGain (rows : List Play) : Option ℚ :=
  if rows.length = 0 then none
  else some (rnd2 (qmean (rows.map Play.resultYards)))

/-- Explosive play rate of the Analytics page, src/main.py lines 261 to
265: the mean falls back to the plain value zero on an empty subset and
the metric is always rendered. -/
def analyticsExplosivePct (rows : List Play) : ℚ :=
  rnd1 (100 * (if rows.length = 0 then 0
    else qmean (rows.map (fun r => if is_explosive r.playType r.resultYards then (1 : ℚ) else 0))))

/-- Truthy tokens accepted by the Success column cleaning in src/main.py
lines 140 to 141. -/
def successTokens : List (List Nat) :=
  [codes "true", codes "1", codes "yes", codes "y", codes "t"]

/-- String form of a cell under astype(str): a missing cell prints as the
three letter text nan. -/
def strForm : Option (List Nat) → List Nat
  | none => codes "nan"
  | some s => s

/-- Success column cleaning from src/main.py lines 140 to 141: lowercase
the string form of the cell and test membership in the truthy tokens. -/
def parseSuccessCell (cell : Option (List Nat)) : Bool :=
  successTokens.contains ((strForm cell).map lowerC)

end Football

namespace Football

/-- C1: for every down in one to four, positive distance and any gain,
compute_success follows the down-dependent thresholds: down 1 compares the
gain with 4 and ignores the distance, down 2 compares with the exact
rational half of the distance, downs 3 and 4 compare with the full
distance, and the boundary where the gain equals the distance counts as a
success. -/
theorem C1_success_rule (down : ℤ) (distance gained : ℚ)
    (hdist : 0 < distance) (hdown : down = 3 ∨ down = 4) :
    (compute_success 1 distance gained = true ↔ 4 ≤ gained) ∧
    (compute_success 2 distance gained = true ↔ distance / 2 ≤ gained) ∧
    (compute_success down distance gained = true ↔ distance ≤ gained) ∧
    compute_success down distance distance = true := by
  have h34 : ∀ g : ℚ, compute_success down distance g = decide (distance ≤ g) := by
    intro g
    rcases hdown with h | h <;> subst h <;> rfl
  refine ⟨?_, ?_, ?_, ?_⟩
  · simp [compute_success]
  · simp [compute_success]
  · rw [h34]; simp
  · rw [h34]; simp

theorem C1_success_rule_witness :
    (compute_success 1 10 5 = true ↔ (4 : ℚ) ≤ 5) ∧
    (compute_success 2 10 5 = true ↔ (10 : ℚ) / 2 ≤ 5) ∧
    (compute_success 3 10 5 = true ↔ (10 : ℚ) ≤ 5) ∧
    compute_success 3 10 10 = true :=
  C1_success_rule 3 10 5 (by norm_num) (Or.inl rfl)

/-- C9: for any down other than 1 and 2, including zero, negative values
and values above four, compute_success totally falls back to comparing the
gain with the full distance. -/
theorem C9_out_of_domain (down : ℤ) (distance gained : ℚ)
    (h1 : down ≠ 1) (h2 : down ≠ 2) :
    compute_success down distance gained = decide (distance ≤ gained) := by
  unfold compute_success
  rw [if_neg h1, if_neg h2]

theorem C9_out_of_domain_witness :
    compute_success 0 7 3 = decide ((7 : ℚ) ≤ 3) :=
  C9_out_of_domain 0 7 3 (by decide) (by decide)

/-- C7: the Success value stored by the Data Entry form always equals
compute_success recomputed on the Down, Distance and ResultYards stored in
the same row. -/
theorem C7_entry_invariant (down : ℤ) (distance result_yards : ℚ) :
    (mkEntryRow down distance result_yards).success =
      compute_success (mkEntryRow down distance result_yards).down
        (mkEntryRow down distance result_yards).distance
        (mkEntryRow down distance result_yards).resultYards := rfl

/-- C2: the explosive classifier calls a record run-like exactly when its
lowercased play type contains the substring run or rpo, a record is
explosive exactly when it is run-like with a gain of at least 10 or
pass-like with a gain of at least 15, the mask treats each record
independently of the others, and the five quoted examples behave as
stated. -/
theorem C2_explosive (pt : List Nat) (gained : ℚ) (rows : List Play) :
    (is_explosive pt gained = true ↔
      (runlikeLower pt = true ∧ 10 ≤ gained) ∨
        (runlikeLower pt = false ∧ 15 ≤ gained)) ∧
    (runlikeLower pt = true ↔
      (containsSub (codes "run") (pt.map lowerC) = true ∨
        containsSub (codes "rpo") (pt.map lowerC) = true)) ∧
    explosive_mask rows = rows.map (fun r => is_explosive r.playType r.resultYards) ∧
    is_explosive (codes "Run") 10 = true ∧
    is_explosive (codes "RPO") 10 = true ∧
    is_explosive (codes "Pass") 15 = true ∧
    is_explosive (codes "Run") (9999 / 1000) = false ∧
    is_explosive (codes "Pass") 14 = false := by
  have hRun : runlikeLower (codes "Run") = true := by decide
  refine ⟨?_, ?_, rfl, by decide, by decide, by decide, ?_, by decide⟩
  · cases h : runlikeLower pt <;> simp [is_explosive, h]
  · simp [runlikeLower]
  · simp only [is_explosive, hRun, Bool.not_true, Bool.true_and, Bool.false_and,
      Bool.or_false, decide_eq_false_iff_not, not_le]
    norm_num

/-- C10: a Success cell is cleaned to true exactly when its string form,
lowercased, is one of the tokens true, 1, yes, y, t; a missing cell and an
empty cell both clean to false rather than to a missing marker. -/
theorem C10_success_parse (cell : Option (List Nat)) :
    (parseSuccessCell cell = true ↔ (strForm cell).map lowerC ∈ successTokens) ∧
    parseSuccessCell none = false ∧
    parseSuccessCell (some []) = false := by
  refine ⟨?_, by decide, by decide⟩
  simp [parseSuccessCell, List.contains]

/-- C8: cleaning maps every non-numeric cell of a numeric column to the
missing marker and never to zero, and the mean over the cleaned column is
exactly the mean of the numeric values, the missing entries excluded
rather than counted as zero. -/
theorem C8_numeric_cleaning (cells : List RawCell) (s : List Nat) :
    cleanNumeric (RawCell.nonNumeric s) = none ∧
    cleanNumeric (RawCell.nonNumeric s) ≠ some 0 ∧
    colMean (cells.map cleanNumeric) =
      (if (numericValues cells).length = 0 then none
       else some ((numericValues cells).sum / (numericValues cells).length)) := by
  have hfm : (cells.map cleanNumeric).filterMap id = numericValues cells := by
    rw [List.filterMap_map]
    rfl
  refine ⟨rfl, by simp [cleanNumeric], ?_⟩
  simp only [colMean, hfm]

/-- Digit codepoints map to their digit value. -/
theorem digitVal_of_isDigit (c : Nat) (h : isDigitC c = true) :
    digitVal c = some ((c : ℤ) - 48) := by
  unfold isDigitC at h
  simp only [Bool.and_eq_true, decide_eq_true_eq] at h
  unfold digitVal
  rw [if_pos h]

/-- C6: on a tag whose trimmed form is a non-empty digit string,
parse_personnel pads a single digit with a trailing zero and returns the
first digit as running backs, the second digit as tight ends, and the
receiver count five minus their sum clamped at zero; the three quoted
examples hold. -/
theorem C6_parse (tag : List Nat) (hne : strip tag ≠ [])
    (hdig : ∀ c ∈ strip tag, isDigitC c = true) :
    (∃ c0 c1 rest,
      (if (strip tag).length = 1 then strip tag ++ [48] else strip tag) =
          c0 :: c1 :: rest ∧
      parse_personnel tag =
        some ((c0 : ℤ) - 48, (c1 : ℤ) - 48,
          max 0 (5 - (((c0 : ℤ) - 48) + ((c1 : ℤ) - 48))))) ∧
    parse_personnel (codes "11") = some (1, 1, 3) ∧
    parse_personnel (codes "12") = some (1, 2, 2) ∧
    parse_personnel (codes "1") = some (1, 0, 4) := by
  refine ⟨?_, by decide, by decide, by decide⟩
  obtain ⟨c0, t, hs⟩ := List.exists_cons_of_ne_nil hne
  have hc0 : digitVal c0 = some ((c0 : ℤ) - 48) :=
    digitVal_of_isDigit c0 (hdig c0 (by rw [hs]; exact List.mem_cons_self c0 t))
  rcases t with _ | ⟨c1, rest⟩
  · refine ⟨c0, 48, [], ?_, ?_⟩
    · rw [hs]
      rfl
    · have h48 : digitVal 48 = some 0 := by norm_num [digitVal]
      simp only [parse_personnel, hs]
      norm_num [hc0, h48]
  · have hc1 : digitVal c1 = some ((c1 : ℤ) - 48) :=
      digitVal_of_isDigit c1 (hdig c1 (by rw [hs]; simp))
    refine ⟨c0, c1, rest, ?_, ?_⟩
    · rw [hs]
      simp
    · simp only [parse_personnel, hs]
      simp [hc0, hc1]

/-- startsWith decides the prefix relation. -/
theorem startsWith_iff (p s : List Nat) : startsWith p s = true ↔ p <+: s := by
  induction p generalizing s with
  | nil => simp [startsWith]
  | cons a ps ih =>
    cases s with
    | nil => simp [startsWith]
    | cons b t => simp [startsWith, ih]

/-- containsSub decides the contiguous substring relation. -/
theorem containsSub_iff (p s : List Nat) : containsSub p s = true ↔ p <:+: s := by
  induction s with
  | nil => simp [containsSub, List.isEmpty_iff]
  | cons c t ih =>
    simp [containsSub, startsWith_iff, ih, List.infix_cons_iff]

/-- Lowercasing after lowercasing changes nothing more. -/
theorem lowerC_lowerC (c : Nat) : lowerC (lowerC c) = lowerC c := by
  unfold lowerC
  split_ifs <;> omega

/-- Lowercasing an uppercased character agrees with lowercasing it
directly. -/
theorem lowerC_upperC (c : Nat) : lowerC (upperC c) = lowerC c := by
  unfold lowerC upperC
  split_ifs <;> omega

/-- Title-casing only changes letter case: lowercasing erases it. -/
theorem map_lowerC_titleAux (b : Bool) (s : List Nat) :
    (titleAux b s).map lowerC = s.map lowerC := by
  induction s generalizing b with
  | nil => rfl
  | cons c t ih =>
    simp only [titleAux, List.map_cons, ih]
    congr 1
    split_ifs
    · exact lowerC_lowerC c
    · exact lowerC_upperC c
    · rfl

theorem map_lowerC_titlecase (s : List Nat) :
    (titlecase s).map lowerC = s.map lowerC :=
  map_lowerC_titleAux false s

/-- Stripping yields a contiguous part of the original string. -/
theorem strip_part (s : List Nat) : strip s <:+: s := by
  have h1 : s.dropWhile isSpaceC <:+ s := List.dropWhile_suffix isSpaceC
  have h2 : (s.dropWhile isSpaceC).reverse.dropWhile isSpaceC <:+
      (s.dropWhile isSpaceC).reverse := List.dropWhile_suffix isSpaceC
  have h3 : ((s.dropWhile isSpaceC).reverse.dropWhile isSpaceC).reverse <+:
      s.dropWhile isSpaceC := by
    apply List.reverse_suffix.mp
    rw [List.reverse_reverse]
    exact h2
  exact List.infix_iff_prefix_suffix.mpr ⟨s.dropWhile isSpaceC, h3, h1⟩

/-- Half-even rounding of an integer is that integer. -/
theorem rnEven_intCast (n : ℤ) : rnEven ((n : ℚ)) = n := by
  unfold rnEven
  rw [Int.fract_intCast, Int.floor_intCast]
  norm_num

theorem rnEven_zero : rnEven 0 = 0 := by
  have h := rnEven_intCast 0
  norm_num at h
  exact h

theorem rnd1_zero : rnd1 0 = 0 := by
  unfold rnd1
  rw [mul_zero, rnEven_zero]
  norm_num

/-- Below the half boundary the value rounds down. -/
theorem rnEven_lt (x : ℚ) (h : Int.fract x < 1 / 2) : rnEven x = ⌊x⌋ := by
  unfold rnEven
  rw [if_pos h]

/-- Above the half boundary the value rounds up. -/
theorem rnEven_gt (x : ℚ) (h : 1 / 2 < Int.fract x) : rnEven x = ⌊x⌋ + 1 := by
  unfold rnEven
  rw [if_neg (by linarith), if_pos h]

/-- On the half boundary with an even floor the value rounds down. -/
theorem rnEven_half_even (x : ℚ) (h : Int.fract x = 1 / 2) (hp : ⌊x⌋ % 2 = 0) :
    rnEven x = ⌊x⌋ := by
  unfold rnEven
  rw [if_neg (by rw [h]; norm_num), if_neg (by rw [h]; norm_num), if_pos hp]

/-- On the half boundary with an odd floor the value rounds up. -/
theorem rnEven_half_odd (x : ℚ) (h : Int.fract x = 1 / 2) (hp : ⌊x⌋ % 2 ≠ 0) :
    rnEven x = ⌊x⌋ + 1 := by
  unfold rnEven
  rw [if_neg (by rw [h]; norm_num), if_neg (by rw [h]; norm_num), if_neg hp]

/-- Floor of an integer minus a value with non-zero fractional part. -/
theorem floor_intCast_sub_of_fract_ne (m : ℤ) (x : ℚ) (h : Int.fract x ≠ 0) :
    ⌊(m : ℚ) - x⌋ = m - ⌊x⌋ - 1 := by
  have h1 : (⌊x⌋ : ℚ) + Int.fract x = x := Int.floor_add_fract x
  have h3 : Int.fract x < 1 := Int.fract_lt_one x
  have h4 : 0 < Int.fract x := lt_of_le_of_ne (Int.fract_nonneg x) (Ne.symm h)
  rw [Int.floor_eq_iff]
  constructor <;> push_cast <;> linarith

/-- Fractional part of an integer minus a value with non-zero fractional
part. -/
theorem fract_intCast_sub_of_fract_ne (m : ℤ) (x : ℚ) (h : Int.fract x ≠ 0) :
    Int.fract ((m : ℚ) - x) = 1 - Int.fract x := by
  have e : (m : ℚ) - x = (m : ℚ) + (-x) := by ring
  rw [e, Int.fract_int_add, Int.fract_neg h]

/-- Evaluation rule: a value below the midpoint of its unit interval
rounds to its floor. -/
theorem rnEven_eq_of_lt (x : ℚ) (n : ℤ) (h1 : (n : ℚ) ≤ x) (h2 : x < (n : ℚ) + 1 / 2) :
    rnEven x = n := by
  have hfl : ⌊x⌋ = n := Int.floor_eq_iff.mpr ⟨h1, by linarith⟩
  have hfr : Int.fract x < 1 / 2 := by
    have he : Int.fract x = x - n := by
      rw [Int.fract, hfl]
    rw [he]
    linarith
  rw [rnEven_lt x hfr, hfl]

/-- Evaluation rule: a value above the midpoint of its unit interval
rounds to its ceiling. -/
theorem rnEven_eq_of_gt (x : ℚ) (n : ℤ) (h1 : (n : ℚ) + 1 / 2 < x) (h2 : x < (n : ℚ) + 1) :
    rnEven x = n + 1 := by
  have hfl : ⌊x⌋ = n := Int.floor_eq_iff.mpr ⟨by linarith, by linarith⟩
  have hfr : 1 / 2 < Int.fract x := by
    have he : Int.fract x = x - n := by
      rw [Int.fract, hfl]
    rw [he]
    linarith
  rw [rnEven_gt x hfr, hfl]

/-- Evaluation rule for the binary logarithm of a positive rational from
a bracketing pair of powers of two. -/
theorem int_log_eq (n : ℤ) (r : ℚ) (hr : 0 < r) (h1 : (2 : ℚ) ^ n ≤ r)
    (h2 : r < (2 : ℚ) ^ (n + 1)) : Int.log 2 r = n := by
  have ha : n ≤ Int.log 2 r := by
    rw [← Int.zpow_le_iff_le_log (by norm_num) hr]
    push_cast
    exact h1
  have hb : Int.log 2 r < n + 1 := by
    rw [← Int.lt_zpow_iff_log_lt (by norm_num) hr]
    push_cast
    exact h2
  omega

/-- Half-even roundings of a value and of its complement to an even
integer add up to that integer. -/
theorem rnEven_add_compl (x : ℚ) (m : ℤ) (hm : m % 2 = 0) :
    rnEven x + rnEven ((m : ℚ) - x) = m := by
  rcases eq_or_ne (Int.fract x) 0 with h0 | h0
  · have hx : x = (⌊x⌋ : ℚ) := by
      have h1 := Int.floor_add_fract x
      rw [h0, add_zero] at h1
      exact h1.symm
    have hsub : (m : ℚ) - x = ((m - ⌊x⌋ : ℤ) : ℚ) := by
      push_cast
      rw [← hx]
    have e1 : rnEven x = ⌊x⌋ := rnEven_lt x (by rw [h0]; norm_num)
    have e2 : rnEven ((m : ℚ) - x) = m - ⌊x⌋ := by rw [hsub, rnEven_intCast]
    omega
  · have hf := fract_intCast_sub_of_fract_ne m x h0
    have hfl := floor_intCast_sub_of_fract_ne m x h0
    rcases lt_trichotomy (Int.fract x) (1 / 2) with hlt | heq | hgt
    · have e1 : rnEven x = ⌊x⌋ := rnEven_lt x hlt
      have e2 : rnEven ((m : ℚ) - x) = ⌊(m : ℚ) - x⌋ + 1 :=
        rnEven_gt _ (by rw [hf]; linarith)
      omega
    · have hfh : Int.fract ((m : ℚ) - x) = 1 / 2 := by rw [hf, heq]; norm_num
      by_cases hp : ⌊x⌋ % 2 = 0
      · have e1 : rnEven x = ⌊x⌋ := rnEven_half_even x heq hp
        have e2 : rnEven ((m : ℚ) - x) = ⌊(m : ℚ) - x⌋ + 1 :=
          rnEven_half_odd _ hfh (by omega)
        omega
      · have e1 : rnEven x = ⌊x⌋ + 1 := rnEven_half_odd x heq hp
        have e2 : rnEven ((m : ℚ) - x) = ⌊(m : ℚ) - x⌋ :=
          rnEven_half_even _ hfh (by omega)
        omega
    · have e1 : rnEven x = ⌊x⌋ + 1 := rnEven_gt x hgt
      have e2 : rnEven ((m : ℚ) - x) = ⌊(m : ℚ) - x⌋ :=
        rnEven_lt _ (by rw [hf]; linarith)
      omega

/-- Sum of an indicator over a list counts the satisfying elements. -/
theorem sum_indicator {α : Type} (p : α → Bool) (l : List α) :
    (l.map (fun a => if p a then (1 : ℚ) else 0)).sum = l.countP p := by
  induction l with
  | nil => simp
  | cons a t ih =>
    simp only [List.map_cons, List.sum_cons, List.countP_cons, ih]
    by_cases h : p a = true
    · simp only [h, if_true]
      push_cast
      ring
    · simp [h]

/-- Sum of the complementary indicator counts the remaining elements. -/
theorem sum_indicator_compl {α : Type} (p : α → Bool) (l : List α) :
    (l.map (fun a => if p a then (0 : ℚ) else 1)).sum = (l.length : ℚ) - l.countP p := by
  induction l with
  | nil => simp
  | cons a t ih =>
    simp only [List.map_cons, List.sum_cons, List.countP_cons, List.length_cons, ih]
    by_cases h : p a = true
    · simp only [h, if_true]
      push_cast
      ring
    · simp only [h, if_false, Bool.false_eq_true]
      push_cast
      ring

/-- The rounded percentage of a predicate and the rounded percentage of
its complement add up to exactly one hundred on any non-empty list. -/
theorem pct_sum {α : Type} (p : α → Bool) (l : List α) (h : l ≠ []) :
    rnd1 (100 * qmean (l.map (fun a => if p a then (1 : ℚ) else 0))) +
      rnd1 (100 * qmean (l.map (fun a => if p a then (0 : ℚ) else 1))) = 100 := by
  have hn : (0 : ℚ) < l.length := by
    have hp := List.length_pos.mpr h
    exact_mod_cast hp
  have hne : (l.length : ℚ) ≠ 0 := ne_of_gt hn
  have e1 : qmean (l.map (fun a => if p a then (1 : ℚ) else 0)) =
      (l.countP p : ℚ) / l.length := by
    unfold qmean
    rw [sum_indicator, List.length_map]
  have e2 : qmean (l.map (fun a => if p a then (0 : ℚ) else 1)) =
      ((l.length : ℚ) - l.countP p) / l.length := by
    unfold qmean
    rw [sum_indicator_compl, List.length_map]
  rw [e1, e2]
  unfold rnd1
  have key : 10 * (100 * (((l.length : ℚ) - l.countP p) / l.length)) =
      ((1000 : ℤ) : ℚ) - 10 * (100 * ((l.countP p : ℚ) / l.length)) := by
    push_cast
    field_simp
    ring
  rw [key]
  have hsum := rnEven_add_compl (10 * (100 * ((l.countP p : ℚ) / l.length))) 1000 (by norm_num)
  have hq := congrArg (fun z : ℤ => (z : ℚ)) hsum
  push_cast at hq
  linarith

/-- C3 amended: under exact rational arithmetic, the idealization the
source formulas denote, the run percentage and the pass percentage, each
a share of the group rounded half-to-even to one decimal, add up to
exactly one hundred over any non-empty group, both for the title-case
classification of the Formation and Personnel explorers and for the
lowercase classification of the Analytics page; the binary64 pipeline the
program executes can break the exact sum, as a group of 2000 plays with
exactly one run-like play shows. -/
theorem C3_run_pass_sum (rows : List Play) (h : rows ≠ []) :
    run_pct rows + pass_pct rows = 100 ∧
    (∃ a b, analyticsRunPct rows = some a ∧ analyticsPassPct rows = some b ∧
      a + b = 100) := by
  have hlen : ¬rows.length = 0 := by
    simpa using h
  constructor
  · unfold run_pct pass_pct
    exact pct_sum _ rows h
  · refine ⟨_, _, ?_, ?_, pct_sum (fun r => runlikeLower r.playType) rows h⟩
    · unfold analyticsRunPct
      rw [if_neg hlen]
    · unfold analyticsPassPct
      rw [if_neg hlen]

theorem C3_run_pass_sum_witness :
    run_pct [⟨codes "Run", 5, true⟩] + pass_pct [⟨codes "Run", 5, true⟩] = 100 ∧
    (∃ a b, analyticsRunPct [⟨codes "Run", 5, true⟩] = some a ∧
      analyticsPassPct [⟨codes "Run", 5, true⟩] = some b ∧ a + b = 100) :=
  C3_run_pass_sum [⟨codes "Run", 5, true⟩] (List.cons_ne_nil _ _)

/-- Binary64 value of the run fraction of one run-like play in 2000: the
quotient lies in the binade of unit 2 to the minus 63 and its significand
rounds up. -/
theorem flRound_run_mean :
    flRound ((1 : ℚ) / 2000) = 4611686018427388 / 9223372036854775808 := by
  have hlog : Int.log 2 ((1 : ℚ) / 2000) = -11 :=
    int_log_eq (-11) _ (by norm_num) (by norm_num) (by norm_num)
  unfold flRound
  rw [if_neg (by norm_num), hlog]
  have he : (-11 : ℤ) - 52 = -63 := by norm_num
  rw [he]
  have hp : (2 : ℚ) ^ (-63 : ℤ) = 1 / 9223372036854775808 := by norm_num
  rw [hp]
  have harg : ((1 : ℚ) / 2000) / (1 / 9223372036854775808) =
      9223372036854775808 / 2000 := by norm_num
  rw [harg, rnEven_eq_of_gt _ 4611686018427387 (by norm_num) (by norm_num)]
  push_cast
  norm_num

/-- Binary64 product of the stored run fraction with 100: the significand
ends in three quarters and rounds up, leaving the double just above one
twentieth. -/
theorem flRound_run_scaled :
    flRound ((461168601842738800 : ℚ) / 9223372036854775808) =
      7205759403792794 / 144115188075855872 := by
  have hlog : Int.log 2 ((461168601842738800 : ℚ) / 9223372036854775808) = -5 :=
    int_log_eq (-5) _ (by norm_num) (by norm_num) (by norm_num)
  unfold flRound
  rw [if_neg (by norm_num), hlog]
  have he : (-5 : ℤ) - 52 = -57 := by norm_num
  rw [he]
  have hp : (2 : ℚ) ^ (-57 : ℤ) = 1 / 144115188075855872 := by norm_num
  rw [hp]
  have harg : ((461168601842738800 : ℚ) / 9223372036854775808) / (1 / 144115188075855872) =
      28823037615171175 / 4 := by norm_num
  rw [harg, rnEven_eq_of_gt _ 7205759403792793 (by norm_num) (by norm_num)]
  push_cast
  norm_num

/-- Binary64 value of the pass fraction of 1999 plays in 2000: the
significand rounds up, leaving the double just above the exact
fraction. -/
theorem flRound_pass_mean :
    flRound ((1999 : ℚ) / 2000) = 9002695655113622 / 9007199254740992 := by
  have hlog : Int.log 2 ((1999 : ℚ) / 2000) = -1 :=
    int_log_eq (-1) _ (by norm_num) (by norm_num) (by norm_num)
  unfold flRound
  rw [if_neg (by norm_num), hlog]
  have he : (-1 : ℤ) - 52 = -53 := by norm_num
  rw [he]
  have hp : (2 : ℚ) ^ (-53 : ℤ) = 1 / 9007199254740992 := by norm_num
  rw [hp]
  have harg : ((1999 : ℚ) / 2000) / (1 / 9007199254740992) =
      1125336956889202688 / 125 := by norm_num
  rw [harg, rnEven_eq_of_gt _ 9002695655113621 (by norm_num) (by norm_num)]
  push_cast
  norm_num

/-- Binary64 product of the stored pass fraction with 100: the
significand rounds down, yet the double stays just above 99.95. -/
theorem flRound_pass_scaled :
    flRound ((900269565511362200 : ℚ) / 9007199254740992) =
      7033355980557517 / 70368744177664 := by
  have hlog : Int.log 2 ((900269565511362200 : ℚ) / 9007199254740992) = 6 :=
    int_log_eq 6 _ (by norm_num) (by norm_num) (by norm_num)
  unfold flRound
  rw [if_neg (by norm_num), hlog]
  have he : (6 : ℤ) - 52 = -46 := by norm_num
  rw [he]
  have hp : (2 : ℚ) ^ (-46 : ℤ) = 1 / 70368744177664 := by norm_num
  rw [hp]
  have harg : ((900269565511362200 : ℚ) / 9007199254740992) / (1 / 70368744177664) =
      112533695688920275 / 16 := by norm_num
  rw [harg, rnEven_eq_of_lt _ 7033355980557517 (by norm_num) (by norm_num)]
  push_cast
  norm_num

/-- The run double sits above one twentieth, so one decimal of display
rounds it to a tenth. -/
theorem rnd1_run_display :
    rnd1 ((7205759403792794 : ℚ) / 144115188075855872) = 1 / 10 := by
  unfold rnd1
  have h10 : 10 * ((7205759403792794 : ℚ) / 144115188075855872) =
      72057594037927940 / 144115188075855872 := by norm_num
  rw [h10, rnEven_eq_of_gt _ 0 (by norm_num) (by norm_num)]
  norm_num

/-- The pass double sits above 99.95, so one decimal of display rounds it
to one hundred. -/
theorem rnd1_pass_display :
    rnd1 ((7033355980557517 : ℚ) / 70368744177664) = 100 := by
  unfold rnd1
  have h10 : 10 * ((7033355980557517 : ℚ) / 70368744177664) =
      70333559805575170 / 70368744177664 := by norm_num
  rw [h10, rnEven_eq_of_gt _ 999 (by norm_num) (by norm_num)]
  norm_num

/-- C3 counterexample: on a group of 2000 plays exactly one of which is
run-like, the binary64 pipeline the program executes displays a run
percentage of 0.1 and a pass percentage of 100.0, so the two one-decimal
percentages the program reports add to 100.1 and not to exactly 100.0. -/
theorem C3_counterexample :
    floatRunPct bigGroup = 1 / 10 ∧ floatPassPct bigGroup = 100 ∧
    floatRunPct bigGroup + floatPassPct bigGroup ≠ 100 := by
  have hcount : bigGroup.countP (fun r => runlikeLower r.playType) = 1 := by
    unfold bigGroup
    rw [List.countP_cons, List.countP_replicate]
    simp [show runlikeLower (codes "Run") = true from by decide,
      show runlikeLower (codes "Pass") = false from by decide]
  have hlen : bigGroup.length = 2000 := by
    unfold bigGroup
    rw [List.length_cons, List.length_replicate]
  have hrun : floatRunPct bigGroup = 1 / 10 := by
    unfold floatRunPct
    rw [hcount, hlen]
    push_cast
    rw [flRound_run_mean]
    have hm : 100 * ((4611686018427388 : ℚ) / 9223372036854775808) =
        461168601842738800 / 9223372036854775808 := by norm_num
    rw [hm, flRound_run_scaled, rnd1_run_display]
  have hpass : floatPassPct bigGroup = 100 := by
    unfold floatPassPct
    rw [hcount, hlen]
    have hsub : (2000 - 1 : ℕ) = 1999 := rfl
    rw [hsub]
    push_cast
    rw [flRound_pass_mean]
    have hm : 100 * ((9002695655113622 : ℚ) / 9007199254740992) =
        900269565511362200 / 9007199254740992 := by norm_num
    rw [hm, flRound_pass_scaled, rnd1_pass_display]
  refine ⟨hrun, hpass, ?_⟩
  rw [hrun, hpass]
  norm_num

/-- C4 counterexample: the explosive rate the Analytics page renders for
an empty subset is the plain value zero, exactly the value it renders for
a non-empty group whose true explosive rate is zero percent, so the empty
group is not reported through a distinct no-data sentinel. -/
theorem C4_counterexample :
    analyticsExplosivePct [] = 0 ∧
    analyticsExplosivePct [⟨codes "Run", 0, false⟩] = 0 := by
  have hex : is_explosive (codes "Run") 0 = false := by decide
  constructor
  · simp [analyticsExplosivePct, rnd1_zero]
  · simp [analyticsExplosivePct, qmean, hex, rnd1_zero]

/-- C4 amended: over zero matching records the run percentage, pass
percentage, success rate and average gain metrics of the Analytics page
are all the omitted no-data sentinel and nothing divides by zero, while
the explosive rate metric is rendered as the plain value zero,
indistinguishable from a true zero percent. -/
theorem C4_empty_group (rows : List Play) (h : rows = []) :
    analyticsRunPct rows = none ∧ analyticsPassPct rows = none ∧
    analyticsSuccessRate rows = none ∧ analyticsAvgGain rows = none ∧
    analyticsExplosivePct rows = 0 := by
  subst h
  refine ⟨rfl, rfl, rfl, rfl, ?_⟩
  simp [analyticsExplosivePct, rnd1_zero]

theorem C4_empty_group_witness :
    analyticsRunPct [] = none ∧ analyticsPassPct [] = none ∧
    analyticsSuccessRate [] = none ∧ analyticsAvgGain [] = none ∧
    analyticsExplosivePct [] = 0 :=
  C4_empty_group [] rfl

/-- C5 counterexample: the play type rerun is pass-like for the
trim-and-title-case path, which matches Run or Rpo case-sensitively in
Rerun and fails, yet run-like for the lowercase path, which finds run
inside rerun, so the two classification paths disagree on this string. -/
theorem C5_counterexample :
    runlikeTitle (codes "rerun") = false ∧ runlikeLower (codes "rerun") = true := by
  constructor <;> decide

/-- C5 amended: the agreement only holds in one direction; whenever the
trim-and-title-case path of the Formation and Personnel explorers
classifies a play type as run-like, the lowercase path of the explosive
classifier and the Analytics page does too, but not conversely. -/
theorem C5_title_implies_lower (pt : List Nat) (h : runlikeTitle pt = true) :
    runlikeLower pt = true := by
  unfold runlikeTitle at h
  unfold runlikeLower
  rw [Bool.or_eq_true] at h ⊢
  have hmap : (titlecase (strip pt)).map lowerC = (strip pt).map lowerC :=
    map_lowerC_titlecase (strip pt)
  have hinf : (strip pt).map lowerC <:+: pt.map lowerC :=
    List.IsInfix.map lowerC (strip_part pt)
  rcases h with h | h
  · left
    rw [containsSub_iff] at h ⊢
    have h2 : (codes "Run").map lowerC <:+: (titlecase (strip pt)).map lowerC :=
      List.IsInfix.map lowerC h
    rw [hmap, show (codes "Run").map lowerC = codes "run" from by decide] at h2
    exact h2.trans hinf
  · right
    rw [containsSub_iff] at h ⊢
    have h2 : (codes "Rpo").map lowerC <:+: (titlecase (strip pt)).map lowerC :=
      List.IsInfix.map lowerC h
    rw [hmap, show (codes "Rpo").map lowerC = codes "rpo" from by decide] at h2
    exact h2.trans hinf

theorem C5_title_implies_lower_witness : runlikeLower (codes "Run") = true :=
  C5_title_implies_lower (codes "Run") (by decide)

theorem C6_parse_witness :
    ((∃ c0 c1 rest,
      (if (strip (codes "11")).length = 1 then strip (codes "11") ++ [48]
       else strip (codes "11")) = c0 :: c1 :: rest ∧
      parse_personnel (codes "11") =
        some ((c0 : ℤ) - 48, (c1 : ℤ) - 48,
          max 0 (5 - (((c0 : ℤ) - 48) + ((c1 : ℤ) - 48))))) ∧
    parse_personnel (codes "11") = some (1, 1, 3) ∧
    parse_personnel (codes "12") = some (1, 2, 2) ∧
    parse_personnel (codes "1") = some (1, 0, 4)) :=
  C6_parse (codes "11") (by decide) (by decide)

end Football
